import Mathlib

/-!
Verification development for the ComfyUI sticky-notes extension
(file src/web/main.js of the repository 0dot77/comfyui-sticky-notes).

The JavaScript source is shallowly embedded: pure functions become Lean
functions on `List Char` / `String` / `Rat`, the mutable module-level state
(`stickyNotes`, `noteIdCounter`, `selectedNoteId`) becomes an explicit
`AppState` record threaded through the operations, and JavaScript's
truthiness-based defaulting (`v || d`) is modelled by explicit `jsOr`
helpers (`0`, `""` and missing values are falsy).  Regex-based text
substitutions of `parseMarkdown` are modelled by fuel-based scanners that
reproduce the left-to-right, non-overlapping, lazy-quantifier semantics of
the JavaScript `String.replace` calls.
-/

namespace StickyNotes

/-- Default color key (constant `DEFAULT_COLOR` of main.js). -/
def DEFAULT_COLOR : String := "yellow"

/-- Default note width in world units (constant `DEFAULT_WIDTH`). -/
def DEFAULT_WIDTH : Rat := 240

/-- Default note height in world units (constant `DEFAULT_HEIGHT`). -/
def DEFAULT_HEIGHT : Rat := 120

/-- Minimum note width in world units (constant `MIN_WIDTH`). -/
def MIN_WIDTH : Rat := 120

/-- Minimum note height in world units (constant `MIN_HEIGHT`). -/
def MIN_HEIGHT : Rat := 80

/-- One entry of the `NOTE_COLORS` palette object: background color,
text color and display name. -/
structure ColorDef where
  bg : String
  text : String
  name : String
deriving DecidableEq

/-- The `NOTE_COLORS` lookup: palette key to entry, `none` for keys that
are not properties of the object (models `NOTE_COLORS[key]` being
`undefined`). -/
def NOTE_COLORS (key : String) : Option ColorDef :=
  if key = "yellow" then some ⟨"#fef3c7", "#92400e", "Yellow"⟩
  else if key = "pink" then some ⟨"#fce7f3", "#9d174d", "Pink"⟩
  else if key = "blue" then some ⟨"#dbeafe", "#1e40af", "Blue"⟩
  else if key = "green" then some ⟨"#dcfce7", "#166534", "Green"⟩
  else if key = "gray" then some ⟨"#f3f4f6", "#374151", "Gray"⟩
  else none

/-! ## Markdown substitution engine

Each `.replace` call of `parseMarkdown` is modelled by one of the scanners
below.  All scanners advance left to right, never re-scan replacement
output, and on a failed match at a position advance by a single character,
exactly like the JavaScript regex engine for the patterns used in the
source (all of which are literal or forced by negated character classes
and lazy quantifiers). -/

/-- Boolean prefix test on character lists. -/
def lpre : List Char → List Char → Bool
  | [], _ => true
  | _ :: _, [] => false
  | p :: ps, c :: cs => p == c && lpre ps cs

/-- Global literal replacement, the semantics of
`s.replace(/lit/g, rep)` for a literal pattern: scan left to right,
replace each occurrence, continue scanning after the occurrence. -/
def replaceAllL (pat rep : List Char) : Nat → List Char → List Char
  | _, [] => []
  | 0, cs => cs
  | fuel + 1, c :: cs =>
    if lpre pat (c :: cs) then rep ++ replaceAllL pat rep fuel ((c :: cs).drop pat.length)
    else c :: replaceAllL pat rep fuel cs

/-- Lazy search for the nearest closing delimiter: returns the (possibly
empty) content before the first occurrence of `close` together with the
remainder after it, provided every content character satisfies `allowed`.
Models a lazy quantifier with a zero minimum, e.g. `([\s\S]*?)` before a
literal closer. -/
def findCloseMin (close : List Char) (allowed : Char → Bool) :
    Nat → List Char → Option (List Char × List Char)
  | 0, cs => if lpre close cs then some ([], cs.drop close.length) else none
  | fuel + 1, cs =>
    if lpre close cs then some ([], cs.drop close.length)
    else
      match cs with
      | [] => none
      | c :: cs' =>
        if allowed c then
          match findCloseMin close allowed fuel cs' with
          | some p => some (c :: p.1, p.2)
          | none => none
        else none

/-- Like `findCloseMin` but the content must contain at least one
character, modelling lazy quantifiers with a one minimum such as `(.+?)`
or `([^*]+)` before a literal closer. -/
def findCloseMin1 (close : List Char) (allowed : Char → Bool) (fuel : Nat)
    (cs : List Char) : Option (List Char × List Char) :=
  match cs with
  | [] => none
  | c :: cs' =>
    if allowed c then
      match findCloseMin close allowed fuel cs' with
      | some p => some (c :: p.1, p.2)
      | none => none
    else none

/-- Paired-delimiter substitution, the semantics of the
`open…content…close → pre…content…post` regex replaces of the source
(code blocks, inline code, bold, italic, strikethrough). -/
def scanPair (openD close : List Char) (allowed : Char → Bool) (minOne : Bool)
    (pre post : List Char) : Nat → List Char → List Char
  | _, [] => []
  | 0, cs => cs
  | fuel + 1, c :: cs =>
    if lpre openD (c :: cs) then
      match (if minOne then findCloseMin1 close allowed fuel ((c :: cs).drop openD.length)
             else findCloseMin close allowed fuel ((c :: cs).drop openD.length)) with
      | some p =>
        pre ++ p.1 ++ post ++ scanPair openD close allowed minOne pre post fuel p.2
      | none => c :: scanPair openD close allowed minOne pre post fuel cs
    else c :: scanPair openD close allowed minOne pre post fuel cs

/-- Link substitution, the semantics of
`.replace(/\[([^\]]+)\]\(([^)]+)\)/g, '<a href="$2" …>$1</a>')`. -/
def scanLinks : Nat → List Char → List Char
  | _, [] => []
  | 0, cs => cs
  | fuel + 1, c :: cs =>
    if c == '[' then
      match findCloseMin1 [']'] (fun ch => !(ch == ']')) fuel cs with
      | some p =>
        match p.2 with
        | '(' :: rest2 =>
          match findCloseMin1 [')'] (fun ch => !(ch == ')')) fuel rest2 with
          | some q =>
            "<a href=\"".data ++ q.1 ++ "\" target=\"_blank\" rel=\"noopener\">".data ++
              p.1 ++ "</a>".data ++ scanLinks fuel q.2
          | none => c :: scanLinks fuel cs
        | _ => c :: scanLinks fuel cs
      | none => c :: scanLinks fuel cs
    else c :: scanLinks fuel cs

/-- Recognise one `<li>…</li>` block (`<li>` then lazy non-newline
content up to the first `</li>`); returns content and remainder. -/
def liBlock (fuel : Nat) (cs : List Char) : Option (List Char × List Char) :=
  if lpre "<li>".data cs then
    findCloseMin "</li>".data (fun ch => !(ch == '\n')) fuel (cs.drop 4)
  else none

/-- The semantics of `.replace(/(<li>.*?<\/li>)(<br>)?/g, '$1')`: drop a
single `<br>` directly following each list-item block. -/
def scanLiBr : Nat → List Char → List Char
  | _, [] => []
  | 0, cs => cs
  | fuel + 1, c :: cs =>
    match liBlock fuel (c :: cs) with
    | some p =>
      "<li>".data ++ p.1 ++ "</li>".data ++
        scanLiBr fuel (if lpre "<br>".data p.2 then p.2.drop 4 else p.2)
    | none => c :: scanLiBr fuel cs

/-- Greedily collect a run of directly adjacent `<li>…</li>` blocks. -/
def liRun : Nat → List Char → (List Char × List Char)
  | 0, cs => ([], cs)
  | fuel + 1, cs =>
    match liBlock fuel cs with
    | some p =>
      let r := liRun fuel p.2
      ("<li>".data ++ p.1 ++ "</li>".data ++ r.1, r.2)
    | none => ([], cs)

/-- The semantics of `.replace(/((?:<li>.*?<\/li>)+)/g, '<ul>$1</ul>')`:
wrap each maximal run of adjacent list items in a single `<ul>`. -/
def scanUl : Nat → List Char → List Char
  | _, [] => []
  | 0, cs => cs
  | fuel + 1, c :: cs =>
    match liBlock fuel (c :: cs) with
    | some _ =>
      let r := liRun (fuel + 1) (c :: cs)
      "<ul>".data ++ r.1 ++ "</ul>".data ++ scanUl fuel r.2
    | none => c :: scanUl fuel cs

/-- Split a character list at newline characters (the lines a `gm`-flag
line-anchored regex operates on). -/
def splitNl : List Char → List (List Char)
  | [] => [[]]
  | c :: cs =>
    if c == '\n' then [] :: splitNl cs
    else
      match splitNl cs with
      | [] => [[c]]
      | l :: ls => (c :: l) :: ls

/-- Apply a per-line rewrite to every line, the semantics of a
`^…$`-anchored replace with the `gm` flags. -/
def mapLines (f : List Char → List Char) (cs : List Char) : List Char :=
  List.intercalate ['\n'] ((splitNl cs).map f)

/-- Line rule `^marker(.+)$ → pre$1post` (headers and blockquotes). -/
def lineRule (marker pre post : List Char) (l : List Char) : List Char :=
  if lpre marker l && !(l.drop marker.length).isEmpty then
    pre ++ l.drop marker.length ++ post
  else l

/-- Line rule for `^[\-\*] (.+)$ → <li>$1</li>` (unordered list items). -/
def ulLine (l : List Char) : List Char :=
  match l with
  | c :: ' ' :: rest =>
    if (c == '-' || c == '*') && !rest.isEmpty then
      "<li>".data ++ rest ++ "</li>".data
    else l
  | _ => l

/-- Line rule for `^\d+\. (.+)$ → <li>$1</li>` (ordered list items). -/
def olLine (l : List Char) : List Char :=
  let ds := l.takeWhile (fun c => c.isDigit)
  let rest := l.dropWhile (fun c => c.isDigit)
  if !ds.isEmpty && lpre ". ".data rest && !(rest.drop 2).isEmpty then
    "<li>".data ++ rest.drop 2 ++ "</li>".data
  else l

/-- Line rule for `^---$ → <hr>` (horizontal rules). -/
def hrLine (l : List Char) : List Char :=
  if l == "---".data then "<hr>".data else l

/-- Literal-replacement wrapper supplying the fuel. -/
def rAll (pat rep : String) (cs : List Char) : List Char :=
  replaceAllL pat.data rep.data cs.length cs

/-- Pair-substitution wrapper supplying the fuel. -/
def sPair (o c : String) (allowed : Char → Bool) (minOne : Bool)
    (pre post : String) (cs : List Char) : List Char :=
  scanPair o.data c.data allowed minOne pre.data post.data cs.length cs

/-- The backquote character (the inline-code delimiter). -/
def backquote : Char := Char.ofNat 96

/-- The `parseMarkdown` function of main.js: the full ordered substitution
pipeline (escape, headers, blockquotes, code blocks, inline code, bold,
italic, strikethrough, links, lists, horizontal rules, line breaks,
list-item consolidation and the final `<br>` clean-ups).  An empty input
short-circuits to the empty string, modelling `if (!text) return ''`. -/
def parseMarkdown (s : String) : String :=
  if s == "" then "" else
  let a1 := rAll "&" "&amp;" s.data
  let a2 := rAll "<" "&lt;" a1
  let a3 := rAll ">" "&gt;" a2
  let b1 := mapLines (lineRule "### ".data "<h3>".data "</h3>".data) a3
  let b2 := mapLines (lineRule "## ".data "<h2>".data "</h2>".data) b1
  let b3 := mapLines (lineRule "# ".data "<h1>".data "</h1>".data) b2
  let b4 := mapLines (lineRule "&gt; ".data "<blockquote>".data "</blockquote>".data) b3
  let c1 := sPair "```" "```" (fun _ => true) false "<pre><code>" "</code></pre>" b4
  let c2 := sPair "`" "`" (fun ch => !(ch == backquote)) true "<code>" "</code>" c1
  let d1 := sPair "**" "**" (fun ch => !(ch == '\n')) true "<strong>" "</strong>" c2
  let d2 := sPair "__" "__" (fun ch => !(ch == '\n')) true "<strong>" "</strong>" d1
  let d3 := sPair "*" "*" (fun ch => !(ch == '*')) true "<em>" "</em>" d2
  let d4 := sPair "_" "_" (fun ch => !(ch == '_')) true "<em>" "</em>" d3
  let d5 := sPair "~~" "~~" (fun ch => !(ch == '\n')) true "<del>" "</del>" d4
  let e1 := scanLinks d5.length d5
  let f1 := mapLines ulLine e1
  let f2 := mapLines olLine f1
  let f3 := mapLines hrLine f2
  let g1 := rAll "\n" "<br>" f3
  let g2 := scanLiBr g1.length g1
  let g3 := scanUl g2.length g2
  let k1 := rAll "<br><h1>" "<h1>" g3
  let k2 := rAll "<br><h2>" "<h2>" k1
  let k3 := rAll "<br><h3>" "<h3>" k2
  let k4 := rAll "</h1><br>" "</h1>" k3
  let k5 := rAll "</h2><br>" "</h2>" k4
  let k6 := rAll "</h3><br>" "</h3>" k5
  let k7 := rAll "<br><blockquote>" "<blockquote>" k6
  let k8 := rAll "</blockquote><br>" "</blockquote>" k7
  let k9 := rAll "<br><ul>" "<ul>" k8
  let k10 := rAll "</ul><br>" "</ul>" k9
  let k11 := rAll "<br><pre>" "<pre>" k10
  let k12 := rAll "</pre><br>" "</pre>" k11
  let k13 := rAll "<br><hr>" "<hr>" k12
  let k14 := rAll "<hr><br>" "<hr>" k13
  String.mk k14

/-- Substring test (used to state properties of rendered output). -/
def hasSub (pat : List Char) : Nat → List Char → Bool
  | 0, cs => lpre pat cs
  | fuel + 1, cs =>
    lpre pat cs ||
      match cs with
      | [] => false
      | _ :: cs' => hasSub pat fuel cs'

/-- String-level substring test. -/
def containsSubstr (hay pat : String) : Bool :=
  hasSub pat.data hay.data.length hay.data

/-! ## Note store and application state

The module-level mutable variables of main.js (`stickyNotes`,
`noteIdCounter`, `selectedNoteId`) become the fields of `AppState`.  A
note's DOM element is abstracted to the one observable bit the claims
need: whether its element currently carries the `selected` CSS class
(`elemSelected`).  Coordinates, sizes and timestamps are exact numbers
(`Rat` / `Int`); `Date.now()` is passed in explicitly as `now`. -/

/-- One entry of the `stickyNotes` array (the `noteData` object literal
of `createStickyNote` / `createStickyNoteFromData`). -/
structure Note where
  id : Nat
  canvasX : Rat
  canvasY : Rat
  width : Rat
  height : Rat
  text : String
  color : String
  createdAt : Int
  isEditing : Bool
  elemSelected : Bool
deriving DecidableEq

/-- The module-level mutable state of main.js. -/
structure AppState where
  stickyNotes : List Note
  noteIdCounter : Nat
  selectedNoteId : Option Nat
deriving DecidableEq

/-- JavaScript `v || d` for numbers (`0` is falsy). -/
def jsOr (v d : Rat) : Rat := if v = 0 then d else v

/-- JavaScript `v || d` for strings (`""` is falsy). -/
def jsOrS (v d : String) : String := if v = "" then d else v

/-- JavaScript `v || d` for integer timestamps (`0` is falsy). -/
def jsOrI (v d : Int) : Int := if v = 0 then d else v

/-- A serialized note record, the object produced per note by
`serializeNotes` (the persisted record shape). -/
structure SavedNote where
  id : Nat
  x : Rat
  y : Rat
  width : Rat
  height : Rat
  text : String
  color : String
  createdAt : Int
deriving DecidableEq

/-- The `serializeNotes` function: project every note of the store to a
plain record, defaulting falsy width/height/createdAt. -/
def serializeNotes (now : Int) (notes : List Note) : List SavedNote :=
  notes.map fun n =>
    { id := n.id, x := n.canvasX, y := n.canvasY,
      width := jsOr n.width DEFAULT_WIDTH, height := jsOr n.height DEFAULT_HEIGHT,
      text := n.text, color := n.color, createdAt := jsOrI n.createdAt now }

/-- An untrusted record handed to `deserializeNotes`: every field may be
missing or of the wrong type (`none`), matching the
`typeof data.x !== 'number'` checks and `||`-defaulting of the source. -/
structure RawRecord where
  x : Option Rat
  y : Option Rat
  width : Option Rat
  height : Option Rat
  text : Option String
  color : Option String
  createdAt : Option Int
deriving DecidableEq

/-- View a well-typed serialized record as an untrusted record (every
field present, as written to the workflow's extra data). -/
def SavedNote.toRaw (s : SavedNote) : RawRecord :=
  { x := some s.x, y := some s.y, width := some s.width, height := some s.height,
    text := some s.text, color := some s.color, createdAt := some s.createdAt }

/-- JavaScript `o.f || d` where the field may be missing. -/
def jsOrOpt (o : Option Rat) (d : Rat) : Rat :=
  match o with
  | none => d
  | some v => jsOr v d

/-- JavaScript `o.f || d` for string fields. -/
def jsOrOptS (o : Option String) (d : String) : String :=
  match o with
  | none => d
  | some v => jsOrS v d

/-- JavaScript `o.f || d` for timestamp fields. -/
def jsOrOptI (o : Option Int) (d : Int) : Int :=
  match o with
  | none => d
  | some v => jsOrI v d

/-- The `data` argument object of `createStickyNoteFromData`. -/
structure NoteData where
  canvasX : Rat
  canvasY : Rat
  width : Rat
  height : Rat
  text : String
  color : String
  createdAt : Int

/-- The `createStickyNoteFromData` function: allocate a fresh id
(`++noteIdCounter`), build the `noteData` object (re-applying the
width/height `||`-defaults of lines 229-230) and push it onto the store.
The saved record's `id` field is not consulted. -/
def createStickyNoteFromData (d : NoteData) (st : AppState) : AppState :=
  let noteId := st.noteIdCounter + 1
  { st with
    noteIdCounter := noteId,
    stickyNotes := st.stickyNotes ++
      [{ id := noteId, canvasX := d.canvasX, canvasY := d.canvasY,
         width := jsOr d.width DEFAULT_WIDTH, height := jsOr d.height DEFAULT_HEIGHT,
         text := d.text, color := d.color, createdAt := d.createdAt,
         isEditing := false, elemSelected := false }] }

/-- The `data` object literal built inside the `deserializeNotes` loop
for a record whose `x`/`y` passed the number check. -/
def mkNoteData (now : Int) (x y : Rat) (r : RawRecord) : NoteData :=
  { canvasX := x, canvasY := y,
    width := jsOrOpt r.width DEFAULT_WIDTH, height := jsOrOpt r.height DEFAULT_HEIGHT,
    text := jsOrOptS r.text "New note...", color := jsOrOptS r.color DEFAULT_COLOR,
    createdAt := jsOrOptI r.createdAt now }

/-- The `deserializeNotes` function: for each record, skip it when `x` or
`y` is not a number, otherwise create a note from the defaulted data. -/
def deserializeNotes (now : Int) : List RawRecord → AppState → AppState
  | [], st => st
  | r :: rs, st =>
    match r.x, r.y with
    | some x, some y =>
      deserializeNotes now rs (createStickyNoteFromData (mkNoteData now x y r) st)
    | _, _ => deserializeNotes now rs st

/-- The `clearAllNotes` function: empty the store and clear the
selection; the id counter is not reset. -/
def clearAllNotes (st : AppState) : AppState :=
  { st with stickyNotes := [], selectedNoteId := none }

/-- The `screenToCanvas` function: `canvasPos = screenPos / scale - offset`. -/
def screenToCanvas (scale offX offY sx sy : Rat) : Rat × Rat :=
  (sx / scale - offX, sy / scale - offY)

/-- The `canvasToScreen` function: `screenPos = (canvasPos + offset) * scale`. -/
def canvasToScreen (scale offX offY cx cy : Rat) : Rat × Rat :=
  ((cx + offX) * scale, (cy + offY) * scale)

/-- Set or clear the `selected` CSS class on a note's element. -/
def setClass (b : Bool) (n : Note) : Note := { n with elemSelected := b }

/-- Apply `f` to the first list entry satisfying `p`, the effect of
`stickyNotes.find(…)` followed by a mutation of the found note. -/
def updateFirst (p : Note → Bool) (f : Note → Note) : List Note → List Note
  | [] => []
  | n :: ns => if p n then f n :: ns else n :: updateFirst p f ns

/-- The `deselectAllNotes` function: if a note is selected, remove its
`selected` class and null out `selectedNoteId`. -/
def deselectAllNotes (st : AppState) : AppState :=
  match st.selectedNoteId with
  | none => st
  | some i =>
    { st with
      selectedNoteId := none,
      stickyNotes := updateFirst (fun n => n.id == i) (setClass false) st.stickyNotes }

/-- The `selectNote` function: deselect the previous note, record the new
id and add the `selected` class to the matching note (if found). -/
def selectNote (noteId : Nat) (st : AppState) : AppState :=
  let st1 := deselectAllNotes st
  { st1 with
    selectedNoteId := some noteId,
    stickyNotes := updateFirst (fun n => n.id == noteId) (setClass true) st1.stickyNotes }

/-- Remove the first list entry satisfying `p`, the effect of
`findIndex` followed by `splice(index, 1)`. -/
def removeFirst (p : Note → Bool) : List Note → List Note
  | [] => []
  | n :: ns => if p n then ns else n :: removeFirst p ns

/-- The `removeNote` function: no-op when the id is absent; otherwise
splice the note out and clear the selection if it referenced this id. -/
def removeNote (noteId : Nat) (st : AppState) : AppState :=
  if st.stickyNotes.any (fun n => n.id == noteId) then
    { st with
      stickyNotes := removeFirst (fun n => n.id == noteId) st.stickyNotes,
      selectedNoteId := if st.selectedNoteId == some noteId then none
                        else st.selectedNoteId }
  else st

/-- The `createStickyNote` function (T + click creation): convert the
click position to canvas coordinates, push a note with the default size,
text, color and timestamp, then select it. -/
def createStickyNote (now : Int) (scale offX offY sx sy : Rat) (st : AppState) : AppState :=
  let cp := screenToCanvas scale offX offY sx sy
  let nid := st.noteIdCounter + 1
  selectNote nid
    { st with
      noteIdCounter := nid,
      stickyNotes := st.stickyNotes ++
        [{ id := nid, canvasX := cp.1, canvasY := cp.2,
           width := DEFAULT_WIDTH, height := DEFAULT_HEIGHT,
           text := "New note...", color := DEFAULT_COLOR, createdAt := now,
           isEditing := false, elemSelected := false }] }

/-- The `changeNoteColor` function: reject unknown palette keys without
mutating the note, otherwise store the key. -/
def changeNoteColor (n : Note) (colorKey : String) : Note :=
  if (NOTE_COLORS colorKey).isSome then { n with color := colorKey } else n

/-- The color actually applied to the element's CSS custom properties by
`applyNoteColor`: `NOTE_COLORS[colorKey] || NOTE_COLORS[DEFAULT_COLOR]`. -/
def applyNoteColor (colorKey : String) : ColorDef :=
  match NOTE_COLORS colorKey with
  | some c => c
  | none =>
    match NOTE_COLORS DEFAULT_COLOR with
    | some c => c
    | none => ⟨"", "", ""⟩

/-- One `mousemove` step of `setupResizeHandlers`: width/height are
recomputed from the gesture-start size plus the scaled pointer delta and
clamped from below by the minimum dimensions. -/
def onResizeMove (scale startW startH dx dy : Rat) (n : Note) : Note :=
  { n with
    width := max MIN_WIDTH (startW + dx / scale),
    height := max MIN_HEIGHT (startH + dy / scale) }

/-- One resize gesture: `startWidth`/`startHeight` are captured at
`mousedown` and every subsequent move recomputes from them. -/
def resizeGesture (scale : Rat) (n : Note) (moves : List (Rat × Rat)) : Note :=
  moves.foldl (fun m mv => onResizeMove scale n.width n.height mv.1 mv.2 m) n

/-- A note together with the text content of its DOM element
(`.sticky-note-content`): while editing the element holds the raw
markdown text, after a commit it holds the rendered markdown. -/
structure NoteView where
  data : Note
  domText : String
deriving DecidableEq

/-- The `stopEditing` function: a guarded no-op unless editing; otherwise
leave the editing state, store the element's current raw text into the
note's `text` field and re-render the markdown. -/
def stopEditing (nv : NoteView) : NoteView :=
  if nv.data.isEditing then
    { data := { nv.data with isEditing := false, text := nv.domText },
      domText := parseMarkdown nv.domText }
  else nv

/-- The `startEditing` function: enter the editing state and show the raw
markdown text in the element. -/
def startEditing (nv : NoteView) : NoteView :=
  { data := { nv.data with isEditing := true }, domText := nv.data.text }

/-- The user typing into the contenteditable element while editing: the
DOM text becomes `v`. -/
def typeText (v : String) (nv : NoteView) : NoteView := { nv with domText := v }

/-- The content `keydown` handler of `setupNoteEventHandlers`: plain
Enter commits via `stopEditing`, and Escape likewise calls `stopEditing`. -/
def handleContentKeydown (key : String) (shiftKey : Bool) (nv : NoteView) : NoteView :=
  let nv1 := if key == "Enter" && !shiftKey then stopEditing nv else nv
  if key == "Escape" then stopEditing nv1 else nv1

/-! ## Characterization of deserialization -/

/-- The note that `deserializeNotes` + `createStickyNoteFromData` build
for a record whose `x`/`y` passed the number check, given the id the
counter will allocate: the composed defaulting chain of both functions. -/
def restoredNote (now : Int) (id : Nat) (x y : Rat) (r : RawRecord) : Note :=
  { id := id, canvasX := x, canvasY := y,
    width := jsOr (jsOrOpt r.width DEFAULT_WIDTH) DEFAULT_WIDTH,
    height := jsOr (jsOrOpt r.height DEFAULT_HEIGHT) DEFAULT_HEIGHT,
    text := jsOrOptS r.text "New note...",
    color := jsOrOptS r.color DEFAULT_COLOR,
    createdAt := jsOrOptI r.createdAt now,
    isEditing := false, elemSelected := false }

/-- The record is kept only when both position fields are numbers
(`typeof data.x === 'number' && typeof data.y === 'number'`). -/
def validXY (r : RawRecord) : Bool := r.x.isSome && r.y.isSome

/-- The list of notes a record sequence restores, with ids allocated
sequentially starting after `k`; records failing the position check
contribute nothing. -/
def restoredList (now : Int) (k : Nat) : List RawRecord → List Note
  | [] => []
  | r :: rs =>
    match r.x, r.y with
    | some x, some y => restoredNote now (k + 1) x y r :: restoredList now (k + 1) rs
    | _, _ => restoredList now k rs

/-- Operational `deserializeNotes` agrees with the `restoredList`
characterization: restored notes are appended in order, the counter
advances once per valid record, and the selection is untouched. -/
lemma deserializeNotes_spec (now : Int) (rs : List RawRecord) (st : AppState) :
    (deserializeNotes now rs st).stickyNotes =
      st.stickyNotes ++ restoredList now st.noteIdCounter rs ∧
    (deserializeNotes now rs st).noteIdCounter =
      st.noteIdCounter + (List.filter validXY rs).length ∧
    (deserializeNotes now rs st).selectedNoteId = st.selectedNoteId := by
  induction rs generalizing st with
  | nil => simp [deserializeNotes, restoredList]
  | cons r rs ih =>
    cases hx : r.x with
    | none =>
      cases hy : r.y <;>
        simpa [deserializeNotes, restoredList, validXY, hx, hy] using ih st
    | some x =>
      cases hy : r.y with
      | none =>
        simpa [deserializeNotes, restoredList, validXY, hx, hy] using ih st
      | some y =>
        have hc : createStickyNoteFromData (mkNoteData now x y r) st =
            ⟨st.stickyNotes ++ [restoredNote now (st.noteIdCounter + 1) x y r],
              st.noteIdCounter + 1, st.selectedNoteId⟩ := rfl
        have hstep : deserializeNotes now (r :: rs) st =
            deserializeNotes now rs (createStickyNoteFromData (mkNoteData now x y r) st) := by
          simp [deserializeNotes, hx, hy]
        obtain ⟨h1, h2, h3⟩ := ih (createStickyNoteFromData (mkNoteData now x y r) st)
        rw [hc] at h1 h2 h3
        refine ⟨?_, ?_, ?_⟩
        · rw [hstep, hc, h1]
          simp only [restoredList, hx, hy]
          simp [List.append_assoc]
        · rw [hstep, hc, h2]
          simp only [List.filter_cons]
          simp [validXY, hx, hy]
          omega
        · rw [hstep, hc, h3]

/-- Claim C3: for all world coordinates and every transform with strictly
positive scale, `toWorld (toView (x, y)) = (x, y)` exactly (hence within
any floating tolerance), where `toView` is `canvasToScreen` and `toWorld`
is `screenToCanvas`. -/
theorem toWorld_toView_roundtrip (scale offX offY x y : Rat) (hs : 0 < scale) :
    screenToCanvas scale offX offY
      (canvasToScreen scale offX offY x y).1
      (canvasToScreen scale offX offY x y).2 = (x, y) := by
  have h : scale ≠ 0 := ne_of_gt hs
  simp [screenToCanvas, canvasToScreen, mul_div_assoc, div_self h]

/-- Witness for C3 at scale 2, offset (3, 4), world point (5, 6). -/
theorem toWorld_toView_roundtrip_witness :
    (0 : Rat) < 2 ∧
      screenToCanvas 2 3 4
        (canvasToScreen 2 3 4 5 6).1 (canvasToScreen 2 3 4 5 6).2 = (5, 6) :=
  ⟨by norm_num, toWorld_toView_roundtrip 2 3 4 5 6 (by norm_num)⟩

/-- Claim C9: deserializing any record sequence appends exactly the notes
of the records with numeric `x` and `y` (with defaults for missing
optional fields), advances the counter once per such record, leaves the
selection untouched, and a record with a non-numeric position field is
skipped with no effect on the resulting state at all. -/
theorem deserialize_skips_invalid_records (now : Int) (rs : List RawRecord) (st : AppState) :
    (deserializeNotes now rs st).stickyNotes =
        st.stickyNotes ++ restoredList now st.noteIdCounter rs ∧
    (deserializeNotes now rs st).noteIdCounter =
        st.noteIdCounter + (List.filter validXY rs).length ∧
    (deserializeNotes now rs st).selectedNoteId = st.selectedNoteId ∧
    ∀ r : RawRecord, validXY r = false →
      deserializeNotes now (r :: rs) st = deserializeNotes now rs st := by
  obtain ⟨h1, h2, h3⟩ := deserializeNotes_spec now rs st
  refine ⟨h1, h2, h3, fun r hr => ?_⟩
  cases hx : r.x with
  | none => rw [deserializeNotes, hx]
  | some x =>
    cases hy : r.y with
    | none => rw [deserializeNotes, hx, hy]
    | some y => simp [validXY, hx, hy] at hr

/-- Witness for C9: a record with a non-numeric `x` is dropped while its
numeric sibling still loads with defaults. -/
theorem deserialize_skips_invalid_records_witness :
    validXY ⟨none, some 1, none, none, none, none, none⟩ = false ∧
      deserializeNotes 5
          [⟨none, some 1, none, none, none, none, none⟩,
           ⟨some 7, some 8, none, none, none, none, none⟩] ⟨[], 0, none⟩ =
        deserializeNotes 5 [⟨some 7, some 8, none, none, none, none, none⟩] ⟨[], 0, none⟩ :=
  ⟨by decide,
    (deserialize_skips_invalid_records 5
        [⟨some 7, some 8, none, none, none, none, none⟩] ⟨[], 0, none⟩).2.2.2
      ⟨none, some 1, none, none, none, none, none⟩ (by decide)⟩

/-- Claim C10: pressing Escape while a note is in the editing state runs
exactly the same `stopEditing` commit as plain Enter does: the currently
visible raw text is stored into the note's `text` field and the editing
state ends — the text is never restored to its pre-edit value. -/
theorem escape_commits_edit (nv : NoteView) (v : String)
    (h : nv.data.isEditing = true) :
    handleContentKeydown "Escape" false (typeText v nv) =
        handleContentKeydown "Enter" false (typeText v nv) ∧
    (handleContentKeydown "Escape" false (typeText v nv)).data.text = v ∧
    (handleContentKeydown "Escape" false (typeText v nv)).data.isEditing = false := by
  refine ⟨?_, ?_, ?_⟩ <;>
    simp [handleContentKeydown, typeText, stopEditing, h]

/-- Witness for C10: an editing note whose pre-edit text is `"old"` and
whose visible text is `"new"` commits `"new"` on Escape. -/
theorem escape_commits_edit_witness :
    (⟨⟨1, 0, 0, 240, 120, "old", "yellow", 1, true, false⟩, "old"⟩ : NoteView).data.isEditing = true ∧
      (handleContentKeydown "Escape" false
        (typeText "new" ⟨⟨1, 0, 0, 240, 120, "old", "yellow", 1, true, false⟩, "old"⟩)).data.text = "new" :=
  ⟨by decide,
    (escape_commits_edit ⟨⟨1, 0, 0, 240, 120, "old", "yellow", 1, true, false⟩, "old"⟩ "new"
      (by decide)).2.1⟩

/-! ## Serialization round trip (C1) and size minimums (C2) -/

/-- Field correspondence between a restored note and the original one
after a serialize / clearAll / deserialize round trip: world position,
size, color and timestamp survive unchanged, while the text is replaced
by the default exactly when it was empty (JavaScript `text || default`). -/
def matchesOriginal (r o : Note) : Prop :=
  r.canvasX = o.canvasX ∧ r.canvasY = o.canvasY ∧ r.width = o.width ∧
  r.height = o.height ∧ r.color = o.color ∧ r.createdAt = o.createdAt ∧
  r.text = jsOrS o.text "New note..."

/-- Round-trip core: restoring the serialized projection of a note list
reproduces the fields (per `matchesOriginal`) and allocates fresh
sequential ids starting after `k`. -/
lemma roundtrip_aux (now1 now2 : Int) (k : Nat) (notes : List Note)
    (h : ∀ n ∈ notes, n.width ≠ 0 ∧ n.height ≠ 0 ∧ n.color ≠ "" ∧ n.createdAt ≠ 0) :
    List.Forall₂ matchesOriginal
        (restoredList now2 k ((serializeNotes now1 notes).map SavedNote.toRaw)) notes ∧
    (restoredList now2 k ((serializeNotes now1 notes).map SavedNote.toRaw)).map Note.id =
      List.range' (k + 1) notes.length := by
  induction notes generalizing k with
  | nil => simp [serializeNotes, restoredList]
  | cons n ns ih =>
    obtain ⟨hw, hh, hc, ht⟩ := h n (List.mem_cons_self n ns)
    have hrest : ∀ m ∈ ns, m.width ≠ 0 ∧ m.height ≠ 0 ∧ m.color ≠ "" ∧ m.createdAt ≠ 0 :=
      fun m hm => h m (List.mem_cons_of_mem n hm)
    obtain ⟨ih1, ih2⟩ := ih (k + 1) hrest
    have hl : restoredList now2 k ((serializeNotes now1 (n :: ns)).map SavedNote.toRaw) =
        restoredNote now2 (k + 1) n.canvasX n.canvasY
            (SavedNote.toRaw
              ⟨n.id, n.canvasX, n.canvasY, jsOr n.width DEFAULT_WIDTH,
                jsOr n.height DEFAULT_HEIGHT, n.text, n.color, jsOrI n.createdAt now1⟩) ::
          restoredList now2 (k + 1) ((serializeNotes now1 ns).map SavedNote.toRaw) := rfl
    rw [hl]
    constructor
    · refine List.Forall₂.cons ?_ ih1
      simp [matchesOriginal, restoredNote, SavedNote.toRaw, jsOrOpt, jsOrOptS, jsOrOptI,
        jsOr, jsOrS, jsOrI, hw, hh, hc, ht]
    · simp only [List.map_cons, ih2, List.length_cons, restoredNote]
      rw [List.range'_succ]

/-- Claim C1 (amended): serialize / clearAll / deserialize reproduces the
note set's world positions, sizes, colors and timestamps in order, with
text preserved exactly when nonempty (defaulting otherwise), but the
restored notes carry freshly allocated ids continuing from the counter —
the original ids are not preserved. -/
theorem serialize_clear_deserialize_roundtrip (st : AppState) (now1 now2 : Int)
    (h : ∀ n ∈ st.stickyNotes, n.width ≠ 0 ∧ n.height ≠ 0 ∧ n.color ≠ "" ∧ n.createdAt ≠ 0) :
    List.Forall₂ matchesOriginal
        (deserializeNotes now2 ((serializeNotes now1 st.stickyNotes).map SavedNote.toRaw)
            (clearAllNotes st)).stickyNotes
        st.stickyNotes ∧
    (deserializeNotes now2 ((serializeNotes now1 st.stickyNotes).map SavedNote.toRaw)
        (clearAllNotes st)).stickyNotes.map Note.id =
      List.range' (st.noteIdCounter + 1) st.stickyNotes.length := by
  obtain ⟨h1, -, -⟩ :=
    deserializeNotes_spec now2 ((serializeNotes now1 st.stickyNotes).map SavedNote.toRaw)
      (clearAllNotes st)
  simp only [clearAllNotes] at h1 ⊢
  obtain ⟨a1, a2⟩ := roundtrip_aux now1 now2 st.noteIdCounter st.stickyNotes h
  rw [h1]
  simpa using ⟨a1, a2⟩

/-- Counterexample to C1 as stated: a store containing the single note
with id 1 and empty text round-trips to a store whose single note has the
fresh id 2 and the default text, so neither id nor text is preserved. -/
theorem roundtrip_changes_id_and_empty_text :
    (deserializeNotes 200
        ((serializeNotes 100
            [⟨1, 10, 20, 240, 120, "", "yellow", 5, false, false⟩]).map SavedNote.toRaw)
        (clearAllNotes
          ⟨[⟨1, 10, 20, 240, 120, "", "yellow", 5, false, false⟩], 1, none⟩)).stickyNotes.map
        (fun n => (n.id, n.text)) = [(2, "New note...")] ∧
    (2 : Nat) ≠ 1 ∧ ("New note..." : String) ≠ "" := by
  refine ⟨by decide, by decide, by decide⟩

/-- Witness for the amended C1 at a concrete one-note store. -/
theorem serialize_clear_deserialize_roundtrip_witness :
    (∀ n ∈ (⟨[⟨1, 10, 20, 240, 120, "hi", "pink", 7, false, false⟩], 1, none⟩ :
          AppState).stickyNotes,
        n.width ≠ 0 ∧ n.height ≠ 0 ∧ n.color ≠ "" ∧ n.createdAt ≠ 0) ∧
    List.Forall₂ matchesOriginal
        (deserializeNotes 200
            ((serializeNotes 100
                (⟨[⟨1, 10, 20, 240, 120, "hi", "pink", 7, false, false⟩], 1, none⟩ :
                  AppState).stickyNotes).map SavedNote.toRaw)
            (clearAllNotes
              ⟨[⟨1, 10, 20, 240, 120, "hi", "pink", 7, false, false⟩], 1, none⟩)).stickyNotes
        (⟨[⟨1, 10, 20, 240, 120, "hi", "pink", 7, false, false⟩], 1, none⟩ :
          AppState).stickyNotes :=
  ⟨by decide,
    (serialize_clear_deserialize_roundtrip
        ⟨[⟨1, 10, 20, 240, 120, "hi", "pink", 7, false, false⟩], 1, none⟩ 100 200
        (by decide)).1⟩

/-- `setClass`-insensitive projections are preserved by `updateFirst`. -/
lemma map_updateFirst_setClass {α : Type} (g : Note → α)
    (hg : ∀ b m, g (setClass b m) = g m) (p : Note → Bool) (b : Bool)
    (l : List Note) :
    List.map g (updateFirst p (setClass b) l) = List.map g l := by
  induction l with
  | nil => rfl
  | cons n ns ih =>
    by_cases hp : p n = true
    · simp [updateFirst, hp, hg]
    · simp [updateFirst, hp, ih]

/-- `selectNote` only toggles CSS classes: any class-insensitive
projection of the store is unchanged. -/
lemma map_selectNote {α : Type} (g : Note → α) (hg : ∀ b m, g (setClass b m) = g m)
    (i : Nat) (st : AppState) :
    List.map g (selectNote i st).stickyNotes = List.map g st.stickyNotes := by
  unfold selectNote deselectAllNotes
  cases h : st.selectedNoteId <;>
    simp [map_updateFirst_setClass g hg]

/-- A nonempty resize gesture always ends clamped to the minimums: the
last processed move recomputes both dimensions through `max MIN_*`. -/
lemma resize_foldl_min (scale w h : Rat) (mv : Rat × Rat) (ms : List (Rat × Rat))
    (acc : Note) :
    MIN_WIDTH ≤
        ((mv :: ms).foldl (fun m p => onResizeMove scale w h p.1 p.2 m) acc).width ∧
    MIN_HEIGHT ≤
        ((mv :: ms).foldl (fun m p => onResizeMove scale w h p.1 p.2 m) acc).height := by
  induction ms generalizing mv acc with
  | nil => exact ⟨le_max_left _ _, le_max_left _ _⟩
  | cons mv2 ms2 ih =>
    simpa using ih mv2 (onResizeMove scale w h mv.1 mv.2 acc)

/-- Claim C2 (amended): after any resize gesture that processes at least
one move event the note's width and height are at least the minimums,
whatever the magnitude or sign of the deltas; and creation always stores
the default size, which is at least the minimums.  (Deserialization does
not clamp — see the counterexample.) -/
theorem resize_clamps_to_min (scale : Rat) (n : Note) (moves : List (Rat × Rat))
    (hm : moves ≠ []) :
    (MIN_WIDTH ≤ (resizeGesture scale n moves).width ∧
      MIN_HEIGHT ≤ (resizeGesture scale n moves).height) ∧
    ∀ (now : Int) (scl offX offY sx sy : Rat) (st : AppState),
      (createStickyNote now scl offX offY sx sy st).stickyNotes.map Note.width =
          st.stickyNotes.map Note.width ++ [DEFAULT_WIDTH] ∧
      (createStickyNote now scl offX offY sx sy st).stickyNotes.map Note.height =
          st.stickyNotes.map Note.height ++ [DEFAULT_HEIGHT] ∧
      MIN_WIDTH ≤ DEFAULT_WIDTH ∧ MIN_HEIGHT ≤ DEFAULT_HEIGHT := by
  constructor
  · cases moves with
    | nil => exact absurd rfl hm
    | cons mv ms => exact resize_foldl_min scale n.width n.height mv ms n
  · intro now scl offX offY sx sy st
    refine ⟨?_, ?_, by norm_num [MIN_WIDTH, DEFAULT_WIDTH], by norm_num [MIN_HEIGHT, DEFAULT_HEIGHT]⟩
    · unfold createStickyNote
      rw [map_selectNote Note.width (fun b m => rfl)]
      simp
    · unfold createStickyNote
      rw [map_selectNote Note.height (fun b m => rfl)]
      simp

/-- Counterexample to C2 as stated: deserializing a record with
`width = height = 5` stores a 5×5 note, far below the minimums, so the
invariant does not hold immediately after deserialization. -/
theorem deserialize_stores_below_min :
    (deserializeNotes 100 [⟨some 0, some 0, some 5, some 5, none, none, none⟩]
        ⟨[], 0, none⟩).stickyNotes.map (fun n => (n.width, n.height)) =
      [((5 : Rat), (5 : Rat))] ∧
    ¬ MIN_WIDTH ≤ (5 : Rat) ∧ ¬ MIN_HEIGHT ≤ (5 : Rat) := by
  refine ⟨by decide, by decide, by decide⟩

/-- Witness for the amended C2: one huge negative move still ends at the
minimums. -/
theorem resize_clamps_to_min_witness :
    ([((-1000 : Rat), (-1000 : Rat))] : List (Rat × Rat)) ≠ [] ∧
      MIN_WIDTH ≤
        (resizeGesture 2 ⟨1, 0, 0, 240, 120, "t", "yellow", 1, false, false⟩
          [((-1000 : Rat), (-1000 : Rat))]).width :=
  ⟨by decide,
    ((resize_clamps_to_min 2 ⟨1, 0, 0, 240, 120, "t", "yellow", 1, false, false⟩
        [((-1000 : Rat), (-1000 : Rat))] (by decide)).1).1⟩

/-! ## Selection invariants (C4) -/

/-- The selection references a live note: if `selectedNoteId` is set, some
stored note carries that id. -/
def selLive (st : AppState) : Bool :=
  match st.selectedNoteId with
  | none => true
  | some i => st.stickyNotes.any (fun n => n.id == i)

/-- Only the selected note's element may carry the `selected` CSS class. -/
def classInv (st : AppState) : Bool :=
  st.stickyNotes.all (fun n => !n.elemSelected || (st.selectedNoteId == some n.id))

/-- Unfolding of `classInv` into its propositional form. -/
lemma classInv_iff (st : AppState) :
    classInv st = true ↔
      ∀ n ∈ st.stickyNotes, n.elemSelected = true → st.selectedNoteId = some n.id := by
  unfold classInv
  rw [List.all_eq_true]
  constructor
  · intro H n hn he
    have := H n hn
    rw [he] at this
    simpa using this
  · intro H n hn
    by_cases he : n.elemSelected = true
    · simp [he, H n hn he]
    · simp [Bool.not_eq_true] at he
      simp [he]

/-- Members surviving `removeFirst` were members before. -/
lemma mem_removeFirst_sub (p : Note → Bool) (l : List Note) :
    ∀ n ∈ removeFirst p l, n ∈ l := by
  induction l with
  | nil => simp [removeFirst]
  | cons m ms ih =>
    intro n hn
    by_cases hp : p m = true
    · simp only [removeFirst, hp, if_true] at hn
      exact List.mem_cons_of_mem m hn
    · simp only [removeFirst, hp, if_false, Bool.false_eq_true, ite_false, List.mem_cons] at hn
      rcases hn with h | h
      · simp [h]
      · exact List.mem_cons_of_mem m (ih n h)

/-- A member not matching the predicate survives `removeFirst`. -/
lemma mem_removeFirst_of_not (p : Note → Bool) (l : List Note) (a : Note)
    (ha : a ∈ l) (hpa : p a = false) : a ∈ removeFirst p l := by
  induction l with
  | nil => cases ha
  | cons m ms ih =>
    by_cases hp : p m = true
    · rcases List.mem_cons.mp ha with h | h
      · rw [← h] at hp
        rw [hpa] at hp
        cases hp
      · simpa [removeFirst, hp] using h
    · rcases List.mem_cons.mp ha with h | h
      · simp [removeFirst, hp, h]
      · simp only [removeFirst, hp, Bool.false_eq_true, ite_false, List.mem_cons]
        exact Or.inr (ih h)

/-- With duplicate-free ids, no survivor of removing id `i` carries id `i`. -/
lemma removeFirst_id_not_mem (i : Nat) (l : List Note)
    (hnd : (l.map Note.id).Nodup) :
    ∀ n ∈ removeFirst (fun n => n.id == i) l, n.id ≠ i := by
  induction l with
  | nil => simp [removeFirst]
  | cons m ms ih =>
    rw [List.map_cons, List.nodup_cons] at hnd
    obtain ⟨hm, hnd'⟩ := hnd
    by_cases hp : (m.id == i) = true
    · have hmi : m.id = i := by simpa using hp
      intro n hn hni
      have hn' : n ∈ ms := by simpa [removeFirst, hp] using hn
      have : n.id ∈ ms.map Note.id := List.mem_map_of_mem Note.id hn'
      rw [hni, ← hmi] at this
      exact hm this
    · intro n hn
      have hsplit : n = m ∨ n ∈ removeFirst (fun n => n.id == i) ms := by
        simpa [removeFirst, hp] using hn
      rcases hsplit with h | h
      · rw [h]
        simpa using hp
      · exact ih hnd' n h

/-- After clearing the class of the unique note with id `i`, provided only
id-`i` notes could carry the class, no note carries it. -/
lemma updateFirst_clears (i : Nat) (l : List Note)
    (hnd : (l.map Note.id).Nodup)
    (hcl : ∀ n ∈ l, n.elemSelected = true → n.id = i) :
    ∀ n ∈ updateFirst (fun n => n.id == i) (setClass false) l,
      n.elemSelected = false := by
  induction l with
  | nil => simp [updateFirst]
  | cons m ms ih =>
    rw [List.map_cons, List.nodup_cons] at hnd
    obtain ⟨hm, hnd'⟩ := hnd
    by_cases hp : (m.id == i) = true
    · have hmi : m.id = i := by simpa using hp
      intro n hn
      have hsplit : n = setClass false m ∨ n ∈ ms := by
        simpa [updateFirst, hp] using hn
      rcases hsplit with h | h
      · simp [h, setClass]
      · by_contra hne
        have he : n.elemSelected = true := by simpa using hne
        have hni : n.id = i := hcl n (List.mem_cons_of_mem m h) he
        have : n.id ∈ ms.map Note.id := List.mem_map_of_mem Note.id h
        rw [hni, ← hmi] at this
        exact hm this
    · intro n hn
      have hsplit : n = m ∨ n ∈ updateFirst (fun n => n.id == i) (setClass false) ms := by
        simpa [updateFirst, hp] using hn
      rcases hsplit with h | h
      · by_contra hne
        have he : n.elemSelected = true := by simpa using hne
        have : n.id = i := hcl n (by simp [h]) he
        rw [h] at this
        simp [this] at hp
      · exact ih hnd' (fun x hx hex => hcl x (List.mem_cons_of_mem m hx) hex) n h

/-- Setting the class of the unique live note with id `B` in an all-clear
store makes class membership coincide with having id `B`. -/
lemma updateFirst_selects (B : Nat) (l : List Note)
    (hnd : (l.map Note.id).Nodup)
    (hall : ∀ n ∈ l, n.elemSelected = false)
    (hlive : ∃ n ∈ l, n.id = B) :
    ∀ n ∈ updateFirst (fun n => n.id == B) (setClass true) l,
      (n.elemSelected = true ↔ n.id = B) := by
  induction l with
  | nil => simp at hlive
  | cons m ms ih =>
    rw [List.map_cons, List.nodup_cons] at hnd
    obtain ⟨hm, hnd'⟩ := hnd
    by_cases hp : (m.id == B) = true
    · have hmB : m.id = B := by simpa using hp
      intro n hn
      have hsplit : n = setClass true m ∨ n ∈ ms := by
        simpa [updateFirst, hp] using hn
      rcases hsplit with h | h
      · simp [h, setClass, hmB]
      · have hne : n.elemSelected = false := hall n (List.mem_cons_of_mem m h)
        have hnB : n.id ≠ B := by
          intro hid
          have : n.id ∈ ms.map Note.id := List.mem_map_of_mem Note.id h
          rw [hid, ← hmB] at this
          exact hm this
        simp [hne, hnB]
    · intro n hn
      have hsplit : n = m ∨ n ∈ updateFirst (fun n => n.id == B) (setClass true) ms := by
        simpa [updateFirst, hp] using hn
      rcases hsplit with h | h
      · have hne : m.elemSelected = false := hall m (List.mem_cons_self m ms)
        have hmB : m.id ≠ B := by simpa using hp
        simp [h, hne, hmB]
      · have hlive' : ∃ x ∈ ms, x.id = B := by
          rcases hlive with ⟨x, hx, hxB⟩
          rcases List.mem_cons.mp hx with h' | h'
          · rw [h'] at hxB
            simp [hxB] at hp
          · exact ⟨x, h', hxB⟩
        exact ih hnd' (fun x hx => hall x (List.mem_cons_of_mem m hx)) hlive' n h

/-- `deselectAllNotes` always nulls the selection. -/
lemma deselect_selectedNoteId (st : AppState) :
    (deselectAllNotes st).selectedNoteId = none := by
  cases h : st.selectedNoteId with
  | none => simp [deselectAllNotes, h]
  | some i => simp [deselectAllNotes, h]

/-- `selLive` when a note is selected is the id-membership check. -/
lemma selLive_eq_any (st : AppState) (i : Nat) (h : st.selectedNoteId = some i) :
    selLive st = (st.stickyNotes.any fun n => n.id == i) := by
  unfold selLive
  rw [h]

/-- `selLive` holds vacuously with no selection. -/
lemma selLive_of_none (st : AppState) (h : st.selectedNoteId = none) :
    selLive st = true := by
  unfold selLive
  rw [h]

/-- Id-membership factors through the id projection. -/
lemma any_id_map (l : List Note) (B : Nat) :
    (l.any fun n => n.id == B) = ((l.map Note.id).any fun x => x == B) := by
  induction l with
  | nil => rfl
  | cons m ms ih => simp [List.any_cons, ih]

/-- `deselectAllNotes` preserves the id projection of the store. -/
lemma deselect_map_id (st : AppState) :
    (deselectAllNotes st).stickyNotes.map Note.id = st.stickyNotes.map Note.id := by
  cases h : st.selectedNoteId with
  | none => simp [deselectAllNotes, h]
  | some i => simp [deselectAllNotes, h, map_updateFirst_setClass Note.id (fun b m => rfl)]

/-- Under the class invariant and duplicate-free ids, `deselectAllNotes`
leaves no element with the `selected` class. -/
lemma deselect_clears (st : AppState)
    (hnd : (st.stickyNotes.map Note.id).Nodup)
    (hcl : classInv st = true) :
    ∀ n ∈ (deselectAllNotes st).stickyNotes, n.elemSelected = false := by
  have hcl' := (classInv_iff st).mp hcl
  cases h : st.selectedNoteId with
  | none =>
    intro n hn
    rw [show deselectAllNotes st = st by simp [deselectAllNotes, h]] at hn
    by_contra hne
    have he : n.elemSelected = true := by simpa using hne
    have := hcl' n hn he
    rw [h] at this
    cases this
  | some i =>
    intro n hn
    simp only [deselectAllNotes, h] at hn
    refine updateFirst_clears i st.stickyNotes hnd ?_ n hn
    intro x hx hex
    have := hcl' x hx hex
    rw [h] at this
    exact (Option.some.inj this).symm

/-- Equal id projections give equal id-membership checks. -/
lemma any_id_eq (l l' : List Note) (h : l.map Note.id = l'.map Note.id) (B : Nat) :
    l.any (fun n => n.id == B) = l'.any (fun n => n.id == B) := by
  rw [any_id_map, h, ← any_id_map]

/-- Notes created by deserialization never carry the `selected` class. -/
lemma restoredList_class_false (now : Int) (rs : List RawRecord) :
    ∀ (k : Nat), ∀ n ∈ restoredList now k rs, n.elemSelected = false := by
  induction rs with
  | nil => simp [restoredList]
  | cons r rs ih =>
    intro k n hn
    simp only [restoredList] at hn
    cases hx : r.x with
    | none =>
      rw [hx] at hn
      exact ih k n (by cases hy : r.y <;> simpa [hy] using hn)
    | some x =>
      cases hy : r.y with
      | none =>
        rw [hx, hy] at hn
        exact ih k n (by simpa using hn)
      | some y =>
        rw [hx, hy] at hn
        simp only [List.mem_cons] at hn
        rcases hn with h | h
        · simp [h, restoredNote]
        · exact ih (k + 1) n h

/-- Claim C4: selection is a singleton referencing a live note, and this
is preserved by every operation — selecting `B` while another note is
selected leaves exactly `B` selected (its element alone carries the
`selected` class), removing the selected note clears the selection,
removing a non-selected note leaves the selection unchanged, and bulk
clear and deserialization also preserve the invariant. -/
theorem selection_singleton_invariant (st : AppState)
    (hsl : selLive st = true) (hcl : classInv st = true)
    (hnd : (st.stickyNotes.map Note.id).Nodup) :
    (∀ B, st.stickyNotes.any (fun n => n.id == B) = true →
        (selectNote B st).selectedNoteId = some B ∧
        selLive (selectNote B st) = true ∧
        classInv (selectNote B st) = true ∧
        ∀ n ∈ (selectNote B st).stickyNotes, (n.elemSelected = true ↔ n.id = B)) ∧
    (∀ i, st.selectedNoteId = some i →
        (removeNote i st).selectedNoteId = none ∧
        selLive (removeNote i st) = true ∧ classInv (removeNote i st) = true) ∧
    (∀ i, st.selectedNoteId ≠ some i →
        (removeNote i st).selectedNoteId = st.selectedNoteId ∧
        selLive (removeNote i st) = true ∧ classInv (removeNote i st) = true) ∧
    ((clearAllNotes st).selectedNoteId = none ∧ selLive (clearAllNotes st) = true ∧
        classInv (clearAllNotes st) = true) ∧
    (∀ (now : Int) (rs : List RawRecord),
        selLive (deserializeNotes now rs st) = true ∧
        classInv (deserializeNotes now rs st) = true) := by
  have hndDes : ((deselectAllNotes st).stickyNotes.map Note.id).Nodup := by
    rw [deselect_map_id]; exact hnd
  refine ⟨?_, ?_, ?_, ?_, ?_⟩
  · -- selectNote
    intro B hB
    have hBdes : (deselectAllNotes st).stickyNotes.any (fun n => n.id == B) = true := by
      rw [any_id_eq _ st.stickyNotes (deselect_map_id st) B]
      exact hB
    have hlive : ∃ n ∈ (deselectAllNotes st).stickyNotes, n.id = B := by
      rcases List.any_eq_true.mp hBdes with ⟨n, hn, hid⟩
      exact ⟨n, hn, by simpa using hid⟩
    have hiff := updateFirst_selects B (deselectAllNotes st).stickyNotes hndDes
      (deselect_clears st hnd hcl) hlive
    have hnotes : (selectNote B st).stickyNotes =
        updateFirst (fun n => n.id == B) (setClass true)
          (deselectAllNotes st).stickyNotes := rfl
    have hsel : (selectNote B st).selectedNoteId = some B := rfl
    refine ⟨hsel, ?_, ?_, ?_⟩
    · have hids : (selectNote B st).stickyNotes.map Note.id =
          st.stickyNotes.map Note.id :=
        map_selectNote Note.id (fun b m => rfl) B st
      rw [selLive_eq_any _ B hsel, any_id_eq _ st.stickyNotes hids B]
      exact hB
    · rw [classInv_iff]
      intro n hn he
      rw [hsel]
      have := (hiff n (by rw [← hnotes]; exact hn)).mp he
      rw [this]
    · intro n hn
      exact hiff n (by rw [← hnotes]; exact hn)
  · -- removeNote of the selected id
    intro i hi
    have hany : st.stickyNotes.any (fun n => n.id == i) = true := by
      rw [← selLive_eq_any st i hi]
      exact hsl
    have hst' : removeNote i st =
        ⟨removeFirst (fun n => n.id == i) st.stickyNotes, st.noteIdCounter, none⟩ := by
      unfold removeNote
      rw [hany, hi]
      simp
    refine ⟨by rw [hst'], by rw [hst']; rfl, ?_⟩
    rw [hst', classInv_iff]
    intro n hn he
    exfalso
    have hni : n.id = i := by
      have := (classInv_iff st).mp hcl n (mem_removeFirst_sub _ _ n hn) he
      rw [hi] at this
      exact (Option.some.inj this).symm
    exact removeFirst_id_not_mem i st.stickyNotes hnd n hn hni
  · -- removeNote of a non-selected id
    intro i hi
    by_cases hany : st.stickyNotes.any (fun n => n.id == i) = true
    · have hbeq : (st.selectedNoteId == some i) = false := by
        simpa using hi
      have hst' : removeNote i st =
          ⟨removeFirst (fun n => n.id == i) st.stickyNotes, st.noteIdCounter,
            st.selectedNoteId⟩ := by
        unfold removeNote
        rw [hany, hbeq]
        simp
      refine ⟨by rw [hst'], ?_, ?_⟩
      · rw [hst']
        cases hj : st.selectedNoteId with
        | none => exact selLive_of_none _ rfl
        | some j =>
          have hji : j ≠ i := by
            intro h
            rw [h] at hj
            exact hi hj
          have hsl' : (st.stickyNotes.any fun n => n.id == j) = true := by
            rw [← selLive_eq_any st j hj]
            exact hsl
          rcases List.any_eq_true.mp hsl' with ⟨n0, hn0, hid0⟩
          have hid0' : n0.id = j := by simpa using hid0
          have hmem : n0 ∈ removeFirst (fun n => n.id == i) st.stickyNotes :=
            mem_removeFirst_of_not _ _ n0 hn0 (by simp [hid0', hji])
          rw [selLive_eq_any _ j rfl]
          exact List.any_eq_true.mpr ⟨n0, hmem, hid0⟩
      · rw [hst', classInv_iff]
        intro n hn he
        exact (classInv_iff st).mp hcl n (mem_removeFirst_sub _ _ n hn) he
    · have hst' : removeNote i st = st := by
        unfold removeNote
        simp only [Bool.not_eq_true] at hany
        rw [hany]
        simp
      rw [hst']
      exact ⟨rfl, hsl, hcl⟩
  · -- clearAllNotes
    refine ⟨rfl, rfl, by rw [classInv_iff]; simp [clearAllNotes]⟩
  · -- deserializeNotes
    intro now rs
    obtain ⟨h1, -, h3⟩ := deserializeNotes_spec now rs st
    constructor
    · cases hj : st.selectedNoteId with
      | none => exact selLive_of_none _ (by rw [h3, hj])
      | some j =>
        rw [selLive_eq_any _ j (by rw [h3, hj])]
        have hsl' : (st.stickyNotes.any fun n => n.id == j) = true := by
          rw [← selLive_eq_any st j hj]
          exact hsl
        rw [h1, List.any_append, hsl']
        rfl
    · rw [classInv_iff]
      intro n hn he
      rw [h3]
      rw [h1] at hn
      rcases List.mem_append.mp hn with h | h
      · exact (classInv_iff st).mp hcl n h he
      · exfalso
        have := restoredList_class_false now rs st.noteIdCounter n h
        rw [this] at he
        cases he

/-- Witness for C4 at a concrete two-note store with note 1 selected:
selecting note 2 leaves exactly note 2 selected. -/
theorem selection_singleton_invariant_witness :
    selLive (⟨[⟨1, 0, 0, 240, 120, "a", "yellow", 1, false, true⟩,
        ⟨2, 0, 0, 240, 120, "b", "pink", 1, false, false⟩], 2, some 1⟩ : AppState) = true ∧
    (selectNote 2
        (⟨[⟨1, 0, 0, 240, 120, "a", "yellow", 1, false, true⟩,
          ⟨2, 0, 0, 240, 120, "b", "pink", 1, false, false⟩], 2, some 1⟩ :
          AppState)).selectedNoteId = some 2 :=
  ⟨by decide,
    ((selection_singleton_invariant
        ⟨[⟨1, 0, 0, 240, 120, "a", "yellow", 1, false, true⟩,
          ⟨2, 0, 0, 240, 120, "b", "pink", 1, false, false⟩], 2, some 1⟩
        (by decide) (by decide) (by decide)).1 2 (by decide)).1⟩

/-! ## Color validity (C5) and markdown properties (C6, C7, C8) -/

/-- Claim C5 (amended): a color-change request with an invalid key is
rejected without mutating the note and a valid key is stored; creation
stores the default key; at deserialization a missing or empty color
defaults, but a nonempty unrecognized key is stored verbatim — only the
visual application (`applyNoteColor`) falls back to the default palette
entry. -/
theorem color_palette_validity (n : Note) (k : String) :
    (NOTE_COLORS k = none → changeNoteColor n k = n) ∧
    (∀ c, NOTE_COLORS k = some c → (changeNoteColor n k).color = k) ∧
    (∀ (now : Int) (x y : Rat) (r : RawRecord),
        (r.color = none ∨ r.color = some "") →
          (mkNoteData now x y r).color = DEFAULT_COLOR) ∧
    (∀ (now : Int) (x y : Rat) (r : RawRecord) (c : String),
        r.color = some c → c ≠ "" → (mkNoteData now x y r).color = c) ∧
    (NOTE_COLORS k = none → applyNoteColor k = applyNoteColor DEFAULT_COLOR) ∧
    (∀ (now : Int) (scl offX offY sx sy : Rat) (st : AppState),
        (createStickyNote now scl offX offY sx sy st).stickyNotes.map Note.color =
          st.stickyNotes.map Note.color ++ [DEFAULT_COLOR]) := by
  refine ⟨?_, ?_, ?_, ?_, ?_, ?_⟩
  · intro h
    simp [changeNoteColor, h]
  · intro c h
    simp [changeNoteColor, h]
  · intro now x y r h
    rcases h with h | h <;> simp [mkNoteData, jsOrOptS, jsOrS, h]
  · intro now x y r c hr hc
    simp [mkNoteData, jsOrOptS, jsOrS, hr, hc]
  · intro h
    unfold applyNoteColor
    rw [h]
    rfl
  · intro now scl offX offY sx sy st
    unfold createStickyNote
    rw [map_selectNote Note.color (fun b m => rfl)]
    simp

/-- Counterexample to C5 as stated: deserializing a record whose color is
the unrecognized nonempty key `"purple"` stores `"purple"` in the note's
color field instead of replacing it with the default. -/
theorem deserialize_keeps_invalid_color :
    (deserializeNotes 100 [⟨some 1, some 2, none, none, none, some "purple", none⟩]
        ⟨[], 0, none⟩).stickyNotes.map Note.color = ["purple"] ∧
    NOTE_COLORS "purple" = none := by
  refine ⟨by decide, by decide⟩

/-- Witness for the amended C5: changing to the invalid key `"purple"`
leaves the note untouched. -/
theorem color_palette_validity_witness :
    NOTE_COLORS "purple" = none ∧
      changeNoteColor ⟨1, 0, 0, 240, 120, "t", "yellow", 1, false, false⟩ "purple" =
        ⟨1, 0, 0, 240, 120, "t", "yellow", 1, false, false⟩ :=
  ⟨by decide,
    (color_palette_validity ⟨1, 0, 0, 240, 120, "t", "yellow", 1, false, false⟩
        "purple").1 (by decide)⟩

/-- Claim C6 (amended): inline-code substitution precedes bold/italic,
but the later substitutions operate on the entire working string, so
delimiters inside an already-emitted code element are still rewritten:
rendering backtick-**a**-backtick yields a code element with a strong
element injected inside it. -/
theorem code_span_bold_rewritten :
    parseMarkdown "`**a**`" = "<code><strong>a</strong></code>" := by decide

/-- Counterexample to C6 as stated: the rendered output of
backtick-**a**-backtick does not contain the literal `**a**` at all, and
a `<strong>` wrapping has been injected inside the code element. -/
theorem code_span_bold_reinterpreted :
    containsSubstr (parseMarkdown "`**a**`") "**a**" = false ∧
    containsSubstr (parseMarkdown "`**a**`") "<strong>" = true := by
  refine ⟨by decide, by decide⟩

/-- Claim C7 (amended): escaping precedes all tag injection and
`render "<script>"` emits only the escaped form with no unescaped
`<script>` tag; however an escaped source character can later be consumed
by a block substitution (see the counterexample), so not every source
`&`/`<`/`>` survives to the output in escaped form. -/
theorem script_stays_escaped :
    parseMarkdown "<script>" = "&lt;script&gt;" ∧
    containsSubstr (parseMarkdown "<script>") "<script>" = false := by
  refine ⟨by decide, by decide⟩

/-- Counterexample to C7 as stated: for the input `"> a"` the source `>`
character appears nowhere escaped in the output — its escaped form was
consumed as the blockquote marker. -/
theorem blockquote_consumes_escaped_gt :
    parseMarkdown "> a" = "<blockquote>a</blockquote>" ∧
    containsSubstr (parseMarkdown "> a") "&gt;" = false := by
  refine ⟨by decide, by decide⟩

/-- Claim C8: rendering two consecutive bullet lines produces exactly one
enclosing list element wrapping the two items, with the line-break marker
between them stripped. -/
theorem consecutive_bullets_single_list :
    parseMarkdown "- a\n- b" = "<ul><li>a</li><li>b</li></ul>" := by decide

end StickyNotes
